import Mathlib

/-!
Shallow embedding of the stelo-finance-server asset ledger and transfer
engine.  Mongo documents become Lean structures, collections become lists,
and each HTTP handler's transactional body becomes a pure function on an
explicit state.  Asset objects (JSON maps from symbol to integer quantity)
are embedded as functions from String to Int together with delta lists;
Mongo updateOne/findOneAndUpdate with a filter becomes updateFirst with the
same predicate, and an aborted transaction returns the pre-state unchanged.
-/

namespace Stelo

/-- Sum of the quantities in a delta list. -/
def sumQty : List (String × Int) → Int
  | [] => 0
  | p :: r => p.2 + sumQty r

/-- Total delta that a Mongo update object (embedded as a key/value list)
applies to one asset key.  For the key-unique objects the server builds,
this is exactly the single entry for that key. -/
def deltaOf (l : List (String × Int)) (k : String) : Int :=
  sumQty (l.filter (fun p => p.1 == k))

/-- Apply the positive increments of an update object to an asset map,
as the recipient-side queryUpdate with per-key increments does. -/
def incAssets (m : String → Int) (l : List (String × Int)) : String → Int :=
  fun k => m k + deltaOf l k

/-- Apply the negations of an update object to an asset map, as the
sender-side queryUpdate with per-key negative increments does. -/
def decAssets (m : String → Int) (l : List (String × Int)) : String → Int :=
  fun k => m k - deltaOf l k

/-- The conjunction of the per-key filter conditions assets.key gte qty
that the server adds to a query filter before a decrement. -/
def hasAssets (m : String → Int) (l : List (String × Int)) : Bool :=
  l.all (fun p => decide (p.2 ≤ m p.1))

/-- Mongo updateOne / findOneAndUpdate semantics on a list-embedded
collection: update the first document matching the filter, if any. -/
def updateFirst (p : α → Bool) (f : α → α) : List α → List α
  | [] => []
  | x :: xs => if p x then f x :: xs else x :: updateFirst p f xs

/-- Mongo findOneAndDelete semantics: remove the first matching document. -/
def removeFirst (p : α → Bool) : List α → List α
  | [] => []
  | x :: xs => if p x then xs else x :: removeFirst p xs

/-- A document of the wallets collection.  The collateralAvailable field is
absent on real wallet documents; Mongo inc creates it on first use, so it is
embedded as an Int that starts at 0. -/
structure WalletDoc where
  id : Nat
  address : String
  username : Option String
  webhook : Option String
  assets : String → Int
  collateralAvailable : Int

/-- The recipient query filter of POST /transactions: an address lookup
(leading hash, lowercased remainder) or a user.username lookup. -/
def recipientFilter (recipient : String) (w : WalletDoc) : Bool :=
  if recipient.front == '#' then
    w.address == (recipient.drop 1).toLower
  else
    w.username == some recipient

/-- findOne on the recipient filter. -/
def resolveRecipient (wallets : List WalletDoc) (recipient : String) : Option WalletDoc :=
  wallets.find? (recipientFilter recipient)

/-- The sender update filter of POST /transactions: the session wallet id
plus the per-asset sufficiency conditions. -/
def senderFilter (senderId : Nat) (assets : List (String × Int)) (w : WalletDoc) : Bool :=
  w.id == senderId && hasAssets w.assets assets

/-- The outer mutable flags that the transaction callback sets to report
which precondition failed (hasFunds, recipientFound, webhookFailed). -/
structure PTFlags where
  hasFunds : Bool
  recipientFound : Bool
  webhookFailed : Bool
deriving DecidableEq, Repr

/-- The stable error codes the route distinguishes after the transaction. -/
inductive PTOutcome
  | success
  | noFunds
  | recipientNotFound
  | webhookFailed
deriving DecidableEq, Repr

/-- The if-chain at the end of POST /transactions that turns the flags into
the single reported response (W0002, then W0003, then W0004, else 201). -/
def reportOf (f : PTFlags) : PTOutcome :=
  if !f.hasFunds then .noFunds
  else if !f.recipientFound then .recipientNotFound
  else if f.webhookFailed then .webhookFailed
  else .success

/-- The transactional body of POST /transactions (peer transfer):
increment the recipient found by address-or-username, consult the webhook
when the recipient is a smart wallet (webhookOk embeds the outcome of the
external axios call), then decrement the sender guarded by sufficiency.
Any abort rolls the whole unit back to the input store. -/
def peerTransactionRun (wallets : List WalletDoc) (senderId : Nat)
    (recipient : String) (assets : List (String × Int)) (webhookOk : Bool) :
    PTFlags × List WalletDoc :=
  match resolveRecipient wallets recipient with
  | none => (⟨true, false, false⟩, wallets)
  | some r =>
    let w1 := updateFirst (recipientFilter recipient)
      (fun w => { w with assets := incAssets w.assets assets }) wallets
    if r.webhook.isSome && !webhookOk then
      (⟨true, true, true⟩, wallets)
    else
      match w1.find? (senderFilter senderId assets) with
      | none => (⟨false, true, false⟩, wallets)
      | some _ =>
        (⟨true, true, false⟩,
          updateFirst (senderFilter senderId assets)
            (fun w => { w with assets := decAssets w.assets assets }) w1)

/-! ## Warehouses, transfers, and the warehouse transfer state machine -/

/-- A document of the warehouses collection. -/
structure Warehouse where
  id : Nat
  collateral : Int
  collateralAvailable : Int
  assets : String → Int

/-- Stored transfer statuses.  The terminal received state is reached by
deletion, never stored. -/
inductive TransferStatus
  | pending
  | sent
deriving DecidableEq, Repr

/-- A document of the transfers collection. -/
structure TransferDoc where
  id : Nat
  status : TransferStatus
  collateralUsed : Int
  receivingWarehouse : Nat
  sendingWarehouse : Nat
  assets : List (String × Int)
deriving DecidableEq, Repr

/-- The ledger state the warehouse routes act on. -/
structure WorldState where
  warehouses : List Warehouse
  wallets : List WalletDoc
  transfers : List TransferDoc

/-- Warehouse filter on the Mongo primary key. -/
def byId (i : Nat) (h : Warehouse) : Bool :=
  h.id == i

/-- Wallet filter on the Mongo primary key. -/
def byWalletId (i : Nat) (w : WalletDoc) : Bool :=
  w.id == i

/-- Wallet filter on user.username, as the deposit route uses. -/
def byUsername (u : String) (w : WalletDoc) : Bool :=
  w.username == some u

/-- Transfer filter on id plus the status-equality guard every transfer
mutation carries. -/
def byTransfer (i : Nat) (s : TransferStatus) (t : TransferDoc) : Bool :=
  t.id == i && t.status == s

/-- POST /transfers: create a pending transfer.  Locks collateralNeeded
(the Asset Valuation result, passed in) on the receiving warehouse guarded
by availability, debits the assets from the sending warehouse guarded by
sufficiency, and inserts the pending transfer document.  none embeds every
abort/error response. -/
def createTransfer (st : WorldState) (receivingId sendingId : Nat)
    (assets : List (String × Int)) (collateralNeeded : Int) (newId : Nat) :
    Option WorldState :=
  match st.warehouses.find? (byId receivingId) with
  | none => none
  | some recv =>
    if recv.collateralAvailable < collateralNeeded then none
    else
      let lockFilter := fun h => byId receivingId h && decide (collateralNeeded ≤ h.collateralAvailable)
      match st.warehouses.find? lockFilter with
      | none => none
      | some _ =>
        let ws1 := updateFirst lockFilter
          (fun h => { h with collateralAvailable := h.collateralAvailable - collateralNeeded })
          st.warehouses
        let sendFilter := fun h => byId sendingId h && hasAssets h.assets assets
        match ws1.find? sendFilter with
        | none => none
        | some _ =>
          let ws2 := updateFirst sendFilter
            (fun h => { h with assets := decAssets h.assets assets }) ws1
          some { st with
            warehouses := ws2,
            transfers := st.transfers ++
              [⟨newId, .pending, collateralNeeded, receivingId, sendingId, assets⟩] }

/-- DELETE /transfers/:transferId: cancel a pending transfer.  Deletes the
transfer guarded by status pending, then (assignedToEither embeds the
warehouseAccounts membership check) returns the locked assets to the
sending warehouse and the reserved collateral to the receiving warehouse;
a failed check aborts the whole unit. -/
def cancelTransfer (st : WorldState) (transferId : Nat) (assignedToEither : Bool) :
    Option WorldState :=
  match st.transfers.find? (byTransfer transferId .pending) with
  | none => none
  | some t =>
    if assignedToEither then
      let ws1 := updateFirst (byId t.sendingWarehouse)
        (fun h => { h with assets := incAssets h.assets t.assets }) st.warehouses
      let ws2 := updateFirst (byId t.receivingWarehouse)
        (fun h => { h with collateralAvailable := h.collateralAvailable + t.collateralUsed }) ws1
      some { st with
        warehouses := ws2,
        transfers := removeFirst (byTransfer transferId .pending) st.transfers }
    else none

/-- PUT /transfers/:transferId/status with body status sent: advance a
pending transfer to sent, guarded by status pending; assignedToSending
embeds the warehouseAccounts check against the sending warehouse, whose
failure aborts (rolling the status update back). -/
def advanceTransfer (st : WorldState) (transferId : Nat) (assignedToSending : Bool) :
    Option WorldState :=
  match st.transfers.find? (byTransfer transferId .pending) with
  | none => none
  | some _ =>
    if assignedToSending then
      some { st with
        transfers := updateFirst (byTransfer transferId .pending)
          (fun t => { t with status := .sent }) st.transfers }
    else none

/-- PUT /transfers/:transferId/status with body status received: delete the
transfer guarded by status sent, deposit its assets into the receiving
warehouse, and credit collateralUsed to the collateralAvailable of the
SENDING warehouse (the literal update the route performs).
assignedToReceiving embeds the warehouseAccounts check against the
receiving warehouse. -/
def confirmReceived (st : WorldState) (transferId : Nat) (assignedToReceiving : Bool) :
    Option WorldState :=
  match st.transfers.find? (byTransfer transferId .sent) with
  | none => none
  | some t =>
    if assignedToReceiving then
      let ws1 := updateFirst (byId t.receivingWarehouse)
        (fun h => { h with assets := incAssets h.assets t.assets }) st.warehouses
      let ws2 := updateFirst (byId t.sendingWarehouse)
        (fun h => { h with collateralAvailable := h.collateralAvailable + t.collateralUsed }) ws1
      some { st with
        warehouses := ws2,
        transfers := removeFirst (byTransfer transferId .sent) st.transfers }
    else none

/-! ## Collateral adjustment and warehouse deposit/withdrawal -/

/-- The asset-map update that adds a delta to the stelo balance only, as
the inc on assets.stelo does. -/
def incStelo (m : String → Int) (d : Int) : String → Int :=
  fun k => if k = "stelo" then m k + d else m k

/-- PATCH /warehouses/:warehouseId/collateral.  A positive balance debits
the caller's stelo guarded by sufficiency and raises both collateral and
collateralAvailable by it; a negative balance lowers both guarded by
availability (pre-checked against the middleware-read warehouse and again
in the update filter) and credits the caller's stelo. -/
def adjustCollateral (st : WorldState) (warehouseId walletId : Nat) (balance : Int) :
    Option WorldState :=
  match st.warehouses.find? (byId warehouseId) with
  | none => none
  | some wh =>
    if balance < 0 then
      if wh.collateralAvailable < -balance then none
      else
        let whFilter := fun h => byId warehouseId h && decide (-balance ≤ h.collateralAvailable)
        match st.warehouses.find? whFilter with
        | none => none
        | some _ =>
          match st.wallets.find? (byWalletId walletId) with
          | none => none
          | some _ =>
            some { st with
              warehouses := updateFirst whFilter
                (fun h => { h with
                  collateral := h.collateral + balance,
                  collateralAvailable := h.collateralAvailable + balance }) st.warehouses,
              wallets := updateFirst (byWalletId walletId)
                (fun w => { w with assets := incStelo w.assets (-balance) }) st.wallets }
    else
      let payFilter := fun w => byWalletId walletId w && decide (balance ≤ w.assets "stelo")
      match st.wallets.find? payFilter with
      | none => none
      | some _ =>
        some { st with
          wallets := updateFirst payFilter
            (fun w => { w with assets := incStelo w.assets (-balance) }) st.wallets,
          warehouses := updateFirst (byId warehouseId)
            (fun h => { h with
              collateral := h.collateral + balance,
              collateralAvailable := h.collateralAvailable + balance }) st.warehouses }

/-- The single queryUpdate object of the deposit route, applied first to
the warehouse and then, verbatim, to the depositor's wallet: inc
collateralAvailable by minus collateralNeeded and inc each asset by its
deposited quantity. -/
def depositUpdate (assets : List (String × Int)) (collateralNeeded : Int)
    (m : String → Int) (avail : Int) : (String → Int) × Int :=
  (incAssets m assets, avail - collateralNeeded)

/-- POST /warehouses/:warehouseId/assets: deposit.  Guarded by the
middleware-read collateral availability and the update filter, applies
depositUpdate to the warehouse and then the same update document to the
wallet found by user.username. -/
def depositAssets (st : WorldState) (warehouseId : Nat) (depositor : String)
    (assets : List (String × Int)) (collateralNeeded : Int) : Option WorldState :=
  match st.warehouses.find? (byId warehouseId) with
  | none => none
  | some wh =>
    if wh.collateralAvailable < collateralNeeded then none
    else
      let whFilter := fun h => byId warehouseId h && decide (collateralNeeded ≤ h.collateralAvailable)
      match st.warehouses.find? whFilter with
      | none => none
      | some _ =>
        match st.wallets.find? (byUsername depositor) with
        | none => none
        | some _ =>
          some { st with
            warehouses := updateFirst whFilter
              (fun h =>
                let u := depositUpdate assets collateralNeeded h.assets h.collateralAvailable
                { h with assets := u.1, collateralAvailable := u.2 }) st.warehouses,
            wallets := updateFirst (byUsername depositor)
              (fun w =>
                let u := depositUpdate assets collateralNeeded w.assets w.collateralAvailable
                { w with assets := u.1, collateralAvailable := u.2 }) st.wallets }

/-- The withdrawal-collateral-overflow compensation of the withdraw route:
when returning the full valuation would push collateralAvailable past
collateral, the returned amount is reduced by
collateralAvailable - collateral + collateralToReturn. -/
def clampedReturn (wh : Warehouse) (collateralToReturn : Int) : Int :=
  if wh.collateral < wh.collateralAvailable + collateralToReturn then
    collateralToReturn - (wh.collateralAvailable - wh.collateral + collateralToReturn)
  else
    collateralToReturn

/-- The single queryUpdate object of the withdraw route, applied first to
the warehouse and then, verbatim, to the withdrawer's wallet: inc
collateralAvailable by the clamped return and inc each asset by minus its
withdrawn quantity. -/
def withdrawUpdate (assets : List (String × Int)) (ret : Int)
    (m : String → Int) (avail : Int) : (String → Int) × Int :=
  (decAssets m assets, avail + ret)

/-- DELETE /warehouses/:warehouseId/assets: withdraw.  Computes the clamped
collateral return from the middleware-read warehouse, then applies
withdrawUpdate to the warehouse guarded by per-asset sufficiency and the
same update document to the wallet found by user.username with the same
per-asset guards. -/
def withdrawAssets (st : WorldState) (warehouseId : Nat) (withdrawer : String)
    (assets : List (String × Int)) (collateralToReturn : Int) : Option WorldState :=
  match st.warehouses.find? (byId warehouseId) with
  | none => none
  | some wh =>
    let ret := clampedReturn wh collateralToReturn
    let whFilter := fun h => byId warehouseId h && hasAssets h.assets assets
    match st.warehouses.find? whFilter with
    | none => none
    | some _ =>
      let userFilter := fun w => byUsername withdrawer w && hasAssets w.assets assets
      match st.wallets.find? userFilter with
      | none => none
      | some _ =>
        some { st with
          warehouses := updateFirst whFilter
            (fun h =>
              let u := withdrawUpdate assets ret h.assets h.collateralAvailable
              { h with assets := u.1, collateralAvailable := u.2 }) st.warehouses,
          wallets := updateFirst userFilter
            (fun w =>
              let u := withdrawUpdate assets ret w.assets w.collateralAvailable
              { w with assets := u.1, collateralAvailable := u.2 }) st.wallets }

/-! ## Operation sequences over the warehouse ledger -/

/-- One warehouse-ledger operation, with external inputs (caller
assignment results, Asset Valuation results) embedded as fields. -/
inductive Op
  | adjust (warehouseId walletId : Nat) (balance : Int)
  | deposit (warehouseId : Nat) (depositor : String)
      (assets : List (String × Int)) (collateralNeeded : Int)
  | withdraw (warehouseId : Nat) (withdrawer : String)
      (assets : List (String × Int)) (collateralToReturn : Int)
  | create (receivingId sendingId : Nat) (assets : List (String × Int))
      (collateralNeeded : Int) (newId : Nat)
  | cancel (transferId : Nat) (assigned : Bool)
  | advance (transferId : Nat) (assigned : Bool)
  | confirm (transferId : Nat) (assigned : Bool)

/-- Apply one operation; a failed operation leaves the state unchanged
(every error path aborts its transaction). -/
def applyOp (st : WorldState) : Op → WorldState
  | .adjust wid uid b => (adjustCollateral st wid uid b).getD st
  | .deposit wid dep q c => (depositAssets st wid dep q c).getD st
  | .withdraw wid wd q c => (withdrawAssets st wid wd q c).getD st
  | .create recv send q c i => (createTransfer st recv send q c i).getD st
  | .cancel i a => (cancelTransfer st i a).getD st
  | .advance i a => (advanceTransfer st i a).getD st
  | .confirm i a => (confirmReceived st i a).getD st

/-- Run a sequence of operations. -/
def runOps (st : WorldState) (ops : List Op) : WorldState :=
  ops.foldl applyOp st

/-- The collateral bound of the spec: every warehouse satisfies
0 ≤ collateralAvailable ≤ collateral. -/
def collateralBoundOk (st : WorldState) : Bool :=
  st.warehouses.all (fun h =>
    decide (0 ≤ h.collateralAvailable) && decide (h.collateralAvailable ≤ h.collateral))

/-! ## Asset valuation and the price cache (validateAssets) -/

/-- One price-cache entry: unit value and refresh timestamp.  Unit prices
are embedded as integers. -/
structure PriceEntry where
  value : Int
  updatedAt : Int
deriving DecidableEq, Repr

/-- Lookup in the process-wide price snapshot (globalAssetObject). -/
def lookupGA (ga : List (String × PriceEntry)) (k : String) : Option PriceEntry :=
  (ga.find? (fun p => p.1 == k)).map (·.2)

/-- Lookup in the external price source (the redis assets hash). -/
def lookupRedis (redis : List (String × Int)) (k : String) : Option Int :=
  (redis.find? (fun p => p.1 == k)).map (·.2)

/-- Thirty minutes in milliseconds, the per-entry staleness threshold. -/
def thirtyMinutes : Int :=
  1000 * 60 * 30

/-- The accumulator of the main loop of validateAssets: the running
collateral total, the stale keys saved for one batched refresh, the keys
that triggered a whole-table fallback load, and whether the loop has not
returned -1. -/
structure VAState where
  total : Int
  outdatedAssets : List String
  fallbacks : List String
  ok : Bool
deriving DecidableEq, Repr

/-- The per-key loop of validateAssets.  A non-positive quantity returns
-1; a key present in the snapshot is summed when fresh and saved to
outdatedAssets when its updatedAt is older than thirty minutes; the
reserve asset stelo, absent from the snapshot, is admitted (contributing
nothing) exactly when steloAllowed; any other absent key triggers the
whole-table fallback load only when the snapshot timestamp is older than
an hour, summing from the source or returning -1.  The loop consults the
snapshot reference and timestamp read at entry throughout. -/
def vaLoop (ga : List (String × PriceEntry)) (gaCheckedAt now : Int)
    (redis : List (String × Int)) (steloAllowed : Bool) :
    List (String × Int) → VAState → VAState
  | [], st => st
  | (k, q) :: rest, st =>
    if q < 1 then { st with ok := false }
    else
      match lookupGA ga k with
      | some e =>
        if e.updatedAt < now - thirtyMinutes then
          vaLoop ga gaCheckedAt now redis steloAllowed rest
            { st with outdatedAssets := st.outdatedAssets ++ [k] }
        else
          vaLoop ga gaCheckedAt now redis steloAllowed rest
            { st with total := st.total + e.value * q }
      | none =>
        if k == "stelo" then
          if steloAllowed then
            vaLoop ga gaCheckedAt now redis steloAllowed rest st
          else
            { st with ok := false }
        else
          if gaCheckedAt < now - thirtyMinutes * 2 then
            if redis.isEmpty then
              { st with fallbacks := st.fallbacks ++ [k], ok := false }
            else
              match lookupRedis redis k with
              | some v =>
                vaLoop ga gaCheckedAt now redis steloAllowed rest
                  { st with fallbacks := st.fallbacks ++ [k], total := st.total + v * q }
              | none => { st with fallbacks := st.fallbacks ++ [k], ok := false }
          else { st with ok := false }

/-- The quantity requested for a key (assetsToCheck lookup). -/
def qtyOf (assetsToCheck : List (String × Int)) (k : String) : Int :=
  ((assetsToCheck.find? (fun p => p.1 == k)).map (·.2)).getD 0

/-- Write one refreshed entry into the snapshot (JS keyed assignment:
replace in place, or append when absent). -/
def setGA (ga : List (String × PriceEntry)) (k : String) (e : PriceEntry) :
    List (String × PriceEntry) :=
  if ga.any (fun p => p.1 == k) then
    updateFirst (fun p => p.1 == k) (fun p => (p.1, e)) ga
  else
    ga ++ [(k, e)]

/-- Result of the outdated-assets refresh pass. -/
structure RefreshOut where
  ga : List (String × PriceEntry)
  total : Int
  ok : Bool

/-- The refresh pass over the outdated keys, after the batched multi-get
from the source: an evicted key is deleted from the snapshot and the call
returns -1; otherwise the entry lands with a fresh updatedAt and its
collateral is added. -/
def refreshLoop (redis : List (String × Int)) (now : Int)
    (assetsToCheck : List (String × Int)) :
    List String → List (String × PriceEntry) → Int → RefreshOut
  | [], ga, total => ⟨ga, total, true⟩
  | k :: rest, ga, total =>
    match lookupRedis redis k with
    | none => ⟨removeFirst (fun p => p.1 == k) ga, total, false⟩
    | some v =>
      refreshLoop redis now assetsToCheck rest
        (setGA ga k ⟨v, now⟩) (total + v * qtyOf assetsToCheck k)

/-- The outward-visible outcome of one validateAssets call: the returned
value (-1 on invalid), the keys sent to the source in the batched
stale-entry refresh, the keys that triggered a whole-table fallback load,
and the snapshot after the call. -/
structure VAResult where
  result : Int
  refreshedFromSource : List String
  fallbacks : List String
  gaAfter : List (String × PriceEntry)

/-- validateAssets: the per-key loop followed, when the loop completed, by
the batched refresh of the saved stale keys. -/
def validateAssets (ga : List (String × PriceEntry)) (gaCheckedAt now : Int)
    (redis : List (String × Int)) (steloAllowed : Bool)
    (assetsToCheck : List (String × Int)) : VAResult :=
  let st := vaLoop ga gaCheckedAt now redis steloAllowed assetsToCheck ⟨0, [], [], true⟩
  if st.ok then
    let r := refreshLoop redis now assetsToCheck st.outdatedAssets ga st.total
    ⟨if r.ok then r.total else -1, st.outdatedAssets, st.fallbacks, r.ga⟩
  else
    ⟨-1, [], st.fallbacks, ga⟩

/-! ## User approval with the genesis distribution -/

/-- The free-stelo formula of the distribution branch:
floor of 250000000 + 0.0015 * balance, embedded exactly over the integers
(3 * s / 2000 is the floor of 0.0015 * s for non-negative s). -/
def freeSteloOf (s : Int) : Int :=
  250000000 + 3 * s / 2000

/-- PUT /users/:username with distribution on: the transactional body that
reads the genesisdistribution wallet, aborts when it is missing or its
stelo balance is at most 500, inserts the new user wallet holding the free
stelo, and debits the distribution wallet by the same amount with no
sufficiency guard. -/
def approveUserDistribution (wallets : List WalletDoc) (username : String)
    (newId : Nat) : Option (List WalletDoc) :=
  match wallets.find? (fun w => w.address == "genesisdistribution") with
  | none => none
  | some d =>
    if d.assets "stelo" ≤ 500 then none
    else
      let freeStelo := freeSteloOf (d.assets "stelo")
      let w1 := wallets ++
        [⟨newId, "", some username, none, incStelo (fun _ => 0) freeStelo, 0⟩]
      some (updateFirst (fun w => w.address == "genesisdistribution")
        (fun w => { w with assets := incStelo w.assets (-freeStelo) }) w1)

/-! ## Spec-side valuation definitions and staleness predicates -/

/-- The cached unit value of a key, 0 when absent. -/
def valueInGA (ga : List (String × PriceEntry)) (k : String) : Int :=
  ((lookupGA ga k).map (·.value)).getD 0

/-- The sum of value times quantity over the non-reserve entries, the
total that the implementation actually produces when every non-reserve
entry is fresh in the snapshot. -/
def sumNonStelo (ga : List (String × PriceEntry)) : List (String × Int) → Int
  | [] => 0
  | p :: r => (if p.1 = "stelo" then 0 else valueInGA ga p.1) * p.2 + sumNonStelo ga r

/-- Modelled from the spec: the total claimed by the spec sentence
"Result is the sum of value * qty over all entries" with the designated
reserve asset counted at its face value of 1 per unit. -/
def specFaceValueTotal (ga : List (String × PriceEntry)) : List (String × Int) → Int
  | [] => 0
  | p :: r => (if p.1 = "stelo" then 1 else valueInGA ga p.1) * p.2 + specFaceValueTotal ga r

/-- Whether a key sits in the snapshot with an entry older than thirty
minutes (the per-entry refresh trigger). -/
def isStaleKey (ga : List (String × PriceEntry)) (now : Int) (k : String) : Bool :=
  match lookupGA ga k with
  | some e => decide (e.updatedAt < now - thirtyMinutes)
  | none => false

/-! ## Concrete fixtures used by witnesses and counterexamples -/

/-- A smart wallet (has a webhook) that owns no assets. -/
def wWebhook : WalletDoc :=
  ⟨0, "alice", some "alice", some "hook", fun _ => 0, 0⟩

/-- A one-wallet store holding the smart wallet. -/
def storeWebhook : List WalletDoc :=
  [wWebhook]

/-- A plain wallet (no webhook) holding 2 of every asset. -/
def wPlain : WalletDoc :=
  ⟨0, "amy", some "amy", none, fun _ => 2, 0⟩

/-- A one-wallet store holding the plain wallet. -/
def storePlain : List WalletDoc :=
  [wPlain]

/-- A world with a sent transfer of 10 wood from warehouse 1 to
warehouse 0, whose 200 collateral was locked from warehouse 0 at
creation (its collateralAvailable already shows 1000 - 200 = 800). -/
def fxTransferWorld : WorldState :=
  { warehouses := [⟨0, 1000, 800, fun _ => 0⟩, ⟨1, 1000, 300, fun _ => 0⟩],
    wallets := [],
    transfers := [⟨7, .sent, 200, 0, 1, [("wood", 10)]⟩] }

/-- A world about to run a full transfer lifecycle: receiving warehouse 0
with 200 collateral fully available, sending warehouse 1 with no
collateral and 10 wood. -/
def fxBoundWorld : WorldState :=
  { warehouses := [⟨0, 200, 200, fun _ => 0⟩, ⟨1, 0, 0, fun k => if k = "wood" then 10 else 0⟩],
    wallets := [],
    transfers := [] }

/-- The transfer lifecycle create, advance to sent, confirm received. -/
def fxBoundOps : List Op :=
  [.create 0 1 [("wood", 10)] 200 7, .advance 7 true, .confirm 7 true]

/-- A store holding only the genesis distribution wallet with a stelo
balance of 501, just over the distribution branch's threshold. -/
def fxDistStore : List WalletDoc :=
  [⟨0, "genesisdistribution", none, none, fun k => if k = "stelo" then 501 else 0, 0⟩]

/-- A snapshot holding one fresh non-reserve price (gold at 2, refreshed
at time 1000) and no entry for the reserve asset. -/
def fxGA : List (String × PriceEntry) :=
  [("gold", ⟨2, 1000⟩)]

/-- A warehouse with collateral 100, 50 of it available, holding 5 wood. -/
def fxWarehouse : Warehouse :=
  ⟨0, 100, 50, fun k => if k = "wood" then 5 else 0⟩

/-- A user wallet for amy holding 8 wood. -/
def fxAmy : WalletDoc :=
  ⟨3, "amy", some "amy", none, fun k => if k = "wood" then 8 else 0, 0⟩

/-- A warehouse world for deposit/withdraw: fxWarehouse plus amy. -/
def fxDepositWorld : WorldState :=
  { warehouses := [fxWarehouse], wallets := [fxAmy], transfers := [] }

/-- The world after amy deposits 2 wood valued at 6 collateral. -/
def fxDepositResult : WorldState :=
  (depositAssets fxDepositWorld 0 "amy" [("wood", 2)] 6).getD fxDepositWorld

/-- The world after amy withdraws 2 wood valued at 70 collateral (enough
to trigger the overflow clamp, since only 50 of 100 is locked). -/
def fxWithdrawResult : WorldState :=
  (withdrawAssets fxDepositWorld 0 "amy" [("wood", 2)] 70).getD fxDepositWorld

/-- Warehouse 0 as it stands after the clamped withdrawal. -/
def fxWithdrawWarehouse : Warehouse :=
  (fxWithdrawResult.warehouses.find? (byId 0)).getD fxWarehouse

/-- The price source used by the staleness witness: iron is priced 7. -/
def fxRedis : List (String × Int) :=
  [("iron", 7)]

/-- Two in the afternoon, in milliseconds: a reference now for the
staleness fixtures. -/
def fxNow : Int :=
  1000 * 60 * 60 * 2

/-- A snapshot with one stale entry (iron, updatedAt 0) and one fresh
entry (gold, updated just before fxNow). -/
def fxStaleGA : List (String × PriceEntry) :=
  [("iron", ⟨4, 0⟩), ("gold", ⟨2, fxNow - 1⟩)]

/-! ## General lemmas on the list-embedded collection primitives -/

theorem findFirst_cons_pos {α} (p : α → Bool) (x : α) (xs : List α) (h : p x = true) :
    (x :: xs).find? p = some x := by
  simp [List.find?, h]

theorem findFirst_cons_neg {α} (p : α → Bool) (x : α) (xs : List α) (h : p x = false) :
    (x :: xs).find? p = xs.find? p := by
  simp [List.find?, h]

theorem find?_eq_some_decomp {α} (p : α → Bool) :
    ∀ {l : List α} {r : α}, l.find? p = some r →
      ∃ l1 l2, l = l1 ++ r :: l2 ∧ p r = true ∧ ∀ x ∈ l1, p x = false := by
  intro l
  induction l with
  | nil => intro r h; simp [List.find?] at h
  | cons x xs ih =>
    intro r h
    by_cases hx : p x = true
    · rw [findFirst_cons_pos p x xs hx] at h
      obtain rfl : x = r := by injection h
      exact ⟨[], xs, rfl, hx, by intro y hy; simp at hy⟩
    · rw [findFirst_cons_neg p x xs (by simpa using hx)] at h
      obtain ⟨l1, l2, hdec, hp, hall⟩ := ih h
      exact ⟨x :: l1, l2, by rw [hdec]; rfl, hp, by
        intro y hy
        rcases List.mem_cons.mp hy with rfl | hy2
        · simpa using hx
        · exact hall y hy2⟩

theorem find?_append_of_forall_false {α} (p : α → Bool) {l1 : List α} (rest : List α)
    (h : ∀ x ∈ l1, p x = false) :
    (l1 ++ rest).find? p = rest.find? p := by
  induction l1 with
  | nil => rfl
  | cons x xs ih =>
    rw [List.cons_append, findFirst_cons_neg p x _ (h x (by simp))]
    exact ih (fun y hy => h y (by simp [hy]))

theorem updateFirst_cons_pos {α} (p : α → Bool) (f : α → α) (x : α) (xs : List α)
    (h : p x = true) :
    updateFirst p f (x :: xs) = f x :: xs := by
  simp [updateFirst, h]

theorem updateFirst_append_of_forall_false {α} (p : α → Bool) (f : α → α)
    {l1 : List α} (rest : List α) (h : ∀ x ∈ l1, p x = false) :
    updateFirst p f (l1 ++ rest) = l1 ++ updateFirst p f rest := by
  induction l1 with
  | nil => rfl
  | cons x xs ih =>
    rw [List.cons_append, List.cons_append, updateFirst, if_neg]
    · rw [ih (fun y hy => h y (by simp [hy]))]
    · simp [h x (by simp)]

theorem nodup_map_middle {α β} (f : α → β) :
    ∀ {l1 : List α} {r : α} {l2 : List α},
      ((l1 ++ r :: l2).map f).Nodup → ∀ x ∈ l1, f x ≠ f r := by
  intro l1
  induction l1 with
  | nil => intro r l2 _ x hx; simp at hx
  | cons a t ih =>
    intro r l2 h x hx
    rw [List.cons_append, List.map_cons, List.nodup_cons] at h
    rcases List.mem_cons.mp hx with rfl | hx2
    · intro hcontra
      exact h.1 (hcontra ▸ List.mem_map_of_mem f (by simp))
    · exact ih h.2 x hx2

theorem sumQty_nonneg :
    ∀ {m : List (String × Int)}, (∀ y ∈ m, 0 ≤ y.2) → 0 ≤ sumQty m := by
  intro m
  induction m with
  | nil => intro _; simp [sumQty]
  | cons a t ih =>
    intro h
    have h1 := ih (fun y hy => h y (List.mem_cons_of_mem _ hy))
    have h2 := h a (by simp)
    simp only [sumQty]
    omega

theorem mem_le_sumQty :
    ∀ {m : List (String × Int)} {x : String × Int}, x ∈ m →
      (∀ y ∈ m, 0 ≤ y.2) → x.2 ≤ sumQty m := by
  intro m
  induction m with
  | nil => intro x hx; simp at hx
  | cons a t ih =>
    intro x hx hpos
    rcases List.mem_cons.mp hx with rfl | hx2
    · have := sumQty_nonneg (fun y hy => hpos y (List.mem_cons_of_mem _ hy))
      simp only [sumQty]
      omega
    · have ha : 0 ≤ a.2 := hpos a (by simp)
      have := ih hx2 (fun y hy => hpos y (List.mem_cons_of_mem _ hy))
      simp only [sumQty]
      omega

theorem le_deltaOf_of_mem {l : List (String × Int)} {p : String × Int}
    (hp : p ∈ l) (hpos : ∀ q ∈ l, 1 ≤ q.2) :
    p.2 ≤ deltaOf l p.1 := by
  have hmem : p ∈ l.filter (fun q => q.1 == p.1) := by
    rw [List.mem_filter]
    exact ⟨hp, by simp⟩
  exact mem_le_sumQty hmem (by
    intro y hy
    have := hpos y (List.mem_filter.mp hy).1
    omega)

theorem hasAssets_eq_true_iff (m : String → Int) (l : List (String × Int)) :
    hasAssets m l = true ↔ ∀ p ∈ l, p.2 ≤ m p.1 := by
  simp [hasAssets, List.all_eq_true]

theorem find?_eq_none_of_forall_false {α} (p : α → Bool) :
    ∀ {l : List α}, (∀ x ∈ l, p x = false) → l.find? p = none := by
  intro l
  induction l with
  | nil => intro _; rfl
  | cons x xs ih =>
    intro h
    rw [findFirst_cons_neg p x xs (h x (by simp))]
    exact ih (fun y hy => h y (List.mem_cons_of_mem _ hy))

theorem nodup_map_middle_right {α β} (f : α → β) :
    ∀ {l1 : List α} {r : α} {l2 : List α},
      ((l1 ++ r :: l2).map f).Nodup → ∀ x ∈ l2, f x ≠ f r := by
  intro l1
  induction l1 with
  | nil =>
    intro r l2 h x hx
    rw [List.nil_append, List.map_cons, List.nodup_cons] at h
    intro hcontra
    exact h.1 (hcontra ▸ List.mem_map_of_mem f hx)
  | cons a t ih =>
    intro r l2 h x hx
    rw [List.cons_append, List.map_cons, List.nodup_cons] at h
    exact ih h.2 x hx

theorem find?_cons_pos_inj {α} {p : α → Bool} {x y : α} {xs : List α}
    (h : (x :: xs).find? p = some y) (hx : p x = true) : y = x := by
  rw [findFirst_cons_pos p x xs hx] at h
  injection h with h2
  exact h2.symm

theorem find?_updateFirst_self {α} (p : α → Bool) (f : α → α) {l : List α} {x : α}
    (h : l.find? p = some x) (hpf : p (f x) = true) :
    (updateFirst p f l).find? p = some (f x) := by
  obtain ⟨l1, l2, rfl, hp, hall⟩ := find?_eq_some_decomp p h
  rw [updateFirst_append_of_forall_false _ _ _ hall, updateFirst_cons_pos _ _ _ _ hp,
    find?_append_of_forall_false _ _ hall, findFirst_cons_pos _ _ _ hpf]

/-! ## Peer transactions: webhook atomicity, error priority, self transfer -/

theorem peerTransaction_flags_cases (wallets : List WalletDoc) (senderId : Nat)
    (recipient : String) (assets : List (String × Int)) (webhookOk : Bool) :
    (peerTransactionRun wallets senderId recipient assets webhookOk).1 = ⟨true, false, false⟩ ∨
    (peerTransactionRun wallets senderId recipient assets webhookOk).1 = ⟨true, true, true⟩ ∨
    (peerTransactionRun wallets senderId recipient assets webhookOk).1 = ⟨false, true, false⟩ ∨
    (peerTransactionRun wallets senderId recipient assets webhookOk).1 = ⟨true, true, false⟩ := by
  unfold peerTransactionRun
  cases resolveRecipient wallets recipient with
  | none => exact Or.inl rfl
  | some r =>
    dsimp only
    split
    · exact Or.inr (Or.inl rfl)
    · split
      · exact Or.inr (Or.inr (Or.inl rfl))
      · exact Or.inr (Or.inr (Or.inr rfl))

/-- Claim C4: for every peer transfer to a smart wallet (the recipient has
a webhook), if the webhook call fails, the whole atomic unit aborts: the
returned wallet store is the pre-operation store unchanged, and the
reported outcome is the webhook-failure error. -/
theorem C4_webhook_failure_atomicity
    (wallets : List WalletDoc) (senderId : Nat) (recipient : String)
    (assets : List (String × Int)) (r : WalletDoc)
    (hres : resolveRecipient wallets recipient = some r)
    (hwh : r.webhook.isSome = true) :
    (peerTransactionRun wallets senderId recipient assets false).2 = wallets ∧
    reportOf (peerTransactionRun wallets senderId recipient assets false).1 =
      PTOutcome.webhookFailed := by
  unfold peerTransactionRun
  rw [hres]
  simp [hwh, reportOf]

/-- Witness for C4 at a concrete one-wallet store whose only wallet is a
smart wallet. -/
theorem C4_webhook_failure_atomicity_witness :
    (peerTransactionRun storeWebhook 1 "alice" [("gold", 5)] false).2 = storeWebhook ∧
    reportOf (peerTransactionRun storeWebhook 1 "alice" [("gold", 5)] false).1 =
      PTOutcome.webhookFailed :=
  C4_webhook_failure_atomicity storeWebhook 1 "alice" [("gold", 5)] wWebhook rfl rfl

/-- Claim C8: the reported error of a peer transfer follows the fixed
priority insufficient-funds, then recipient-not-found, then
webhook-failure, and at most one of the three failure conditions is
recorded by any single execution. -/
theorem C8_error_report_priority
    (wallets : List WalletDoc) (senderId : Nat) (recipient : String)
    (assets : List (String × Int)) (webhookOk : Bool) (fl : PTFlags)
    (hfl : (peerTransactionRun wallets senderId recipient assets webhookOk).1 = fl) :
    (fl.hasFunds = false → reportOf fl = PTOutcome.noFunds) ∧
    (fl.hasFunds = true → fl.recipientFound = false →
      reportOf fl = PTOutcome.recipientNotFound) ∧
    (fl.hasFunds = true → fl.recipientFound = true → fl.webhookFailed = true →
      reportOf fl = PTOutcome.webhookFailed) ∧
    (if fl.hasFunds then 0 else 1) + (if fl.recipientFound then 0 else 1) +
      (if fl.webhookFailed then 1 else 0) ≤ 1 := by
  rcases peerTransaction_flags_cases wallets senderId recipient assets webhookOk with
    h | h | h | h <;>
  · rw [hfl] at h
    subst h
    refine ⟨?_, ?_, ?_, ?_⟩ <;> decide

/-- Witness for C8 at a concrete store: the recipient is missing, so the
recipient-not-found flag alone is recorded and reported. -/
theorem C8_error_report_priority_witness :
    ((⟨true, false, false⟩ : PTFlags).hasFunds = false →
      reportOf ⟨true, false, false⟩ = PTOutcome.noFunds) ∧
    ((⟨true, false, false⟩ : PTFlags).hasFunds = true →
      (⟨true, false, false⟩ : PTFlags).recipientFound = false →
      reportOf ⟨true, false, false⟩ = PTOutcome.recipientNotFound) ∧
    ((⟨true, false, false⟩ : PTFlags).hasFunds = true →
      (⟨true, false, false⟩ : PTFlags).recipientFound = true →
      (⟨true, false, false⟩ : PTFlags).webhookFailed = true →
      reportOf ⟨true, false, false⟩ = PTOutcome.webhookFailed) ∧
    (if (⟨true, false, false⟩ : PTFlags).hasFunds then 0 else 1) +
      (if (⟨true, false, false⟩ : PTFlags).recipientFound then 0 else 1) +
      (if (⟨true, false, false⟩ : PTFlags).webhookFailed then 1 else 0) ≤ 1 :=
  C8_error_report_priority storePlain 9 "nobody" [("gold", 5)] true
    ⟨true, false, false⟩ rfl

/-- Counterexample to claim C9 as stated: a transfer whose recipient
resolves to the sender's own wallet, with positive quantities, does not
succeed when that wallet is a smart wallet whose webhook call fails. -/
theorem C9_self_transfer_counterexample :
    resolveRecipient storeWebhook "alice" = some wWebhook ∧
    wWebhook.id = 0 ∧
    (∀ p ∈ [("gold", (5 : Int))], 1 ≤ p.2) ∧
    reportOf (peerTransactionRun storeWebhook 0 "alice" [("gold", 5)] false).1 ≠
      PTOutcome.success := by
  exact ⟨rfl, rfl, by decide, by decide⟩

/-- Claim C9 as amended: for every peer transfer whose recipient resolves
to the sender's own wallet, whose quantities are positive, and whose
wallet either has no webhook or whose webhook call succeeds, the operation
succeeds regardless of the sender's prior (non-negative) balances, and
every asset balance of that wallet is unchanged afterwards. -/
theorem C9_self_transfer_noop
    (wallets : List WalletDoc) (senderId : Nat) (recipient : String)
    (assets : List (String × Int)) (webhookOk : Bool) (r : WalletDoc)
    (hnodup : (wallets.map (·.id)).Nodup)
    (hres : resolveRecipient wallets recipient = some r)
    (hrid : r.id = senderId)
    (hwh : r.webhook = none ∨ webhookOk = true)
    (hpos : ∀ p ∈ assets, 1 ≤ p.2)
    (hnn : ∀ k, 0 ≤ r.assets k) :
    reportOf (peerTransactionRun wallets senderId recipient assets webhookOk).1 =
      PTOutcome.success ∧
    ∃ w2, (peerTransactionRun wallets senderId recipient assets webhookOk).2.find?
        (byWalletId senderId) = some w2 ∧ ∀ k, w2.assets k = r.assets k := by
  obtain ⟨l1, l2, hdec, hPr, hl1⟩ := find?_eq_some_decomp (recipientFilter recipient) hres
  subst hdec
  have hneq : ∀ x ∈ l1, x.id ≠ senderId := by
    intro x hx
    rw [← hrid]
    exact nodup_map_middle (·.id) hnodup x hx
  have hW1 : updateFirst (recipientFilter recipient)
      (fun w => { w with assets := incAssets w.assets assets }) (l1 ++ r :: l2)
      = l1 ++ { r with assets := incAssets r.assets assets } :: l2 := by
    rw [updateFirst_append_of_forall_false _ _ _ hl1, updateFirst_cons_pos _ _ _ _ hPr]
  have hwB : (r.webhook.isSome && !webhookOk) = false := by
    rcases hwh with h | h
    · rw [h]; rfl
    · rw [h]; simp
  have hSF : senderFilter senderId assets { r with assets := incAssets r.assets assets } = true := by
    have hA : hasAssets (incAssets r.assets assets) assets = true := by
      rw [hasAssets_eq_true_iff]
      intro p hp
      have h1 := le_deltaOf_of_mem hp hpos
      have h2 := hnn p.1
      simp only [incAssets]
      omega
    simp [senderFilter, hrid, hA]
  have hSFl1 : ∀ x ∈ l1, senderFilter senderId assets x = false := by
    intro x hx
    simp [senderFilter, hneq x hx]
  have hfind : (l1 ++ { r with assets := incAssets r.assets assets } :: l2).find?
      (senderFilter senderId assets) = some { r with assets := incAssets r.assets assets } := by
    rw [find?_append_of_forall_false _ _ hSFl1, findFirst_cons_pos _ _ _ hSF]
  have hupd : updateFirst (senderFilter senderId assets)
      (fun w => { w with assets := decAssets w.assets assets })
      (l1 ++ { r with assets := incAssets r.assets assets } :: l2)
      = l1 ++ { r with assets := decAssets (incAssets r.assets assets) assets } :: l2 := by
    rw [updateFirst_append_of_forall_false _ _ _ hSFl1, updateFirst_cons_pos _ _ _ _ hSF]
  have hfinal : (l1 ++ { r with assets := decAssets (incAssets r.assets assets) assets } :: l2).find?
      (byWalletId senderId)
      = some { r with assets := decAssets (incAssets r.assets assets) assets } := by
    rw [find?_append_of_forall_false _ _ (by
      intro x hx
      simp [byWalletId, hneq x hx])]
    apply findFirst_cons_pos
    simp [byWalletId, hrid]
  unfold peerTransactionRun
  rw [hres]
  dsimp only
  rw [hW1, hwB]
  simp only [Bool.false_eq_true, if_false]
  rw [hfind]
  refine ⟨rfl, ⟨{ r with assets := decAssets (incAssets r.assets assets) assets }, ?_, ?_⟩⟩
  · dsimp only
    rw [hupd, hfinal]
  · intro k
    simp only [decAssets, incAssets]
    omega

/-- Witness for the amended C9 at a one-wallet store without a webhook:
the self transfer of 5 gold succeeds and the balance stays as it was. -/
theorem C9_self_transfer_noop_witness :
    reportOf (peerTransactionRun storePlain 0 "amy" [("gold", 5)] true).1 =
      PTOutcome.success ∧
    ∃ w2, (peerTransactionRun storePlain 0 "amy" [("gold", 5)] true).2.find?
        (byWalletId 0) = some w2 ∧ ∀ k, w2.assets k = wPlain.assets k :=
  C9_self_transfer_noop storePlain 0 "amy" [("gold", 5)] true wPlain
    (by decide) rfl rfl (Or.inl rfl) (by decide)
    (fun k => by show (0 : Int) ≤ 2; decide)

/-! ## The warehouse transfer state machine: confirm received -/

/-- Claim C1, evaluated at the failing input: confirming the sent transfer
of 10 wood (collateralUsed 200, locked from receiving warehouse 0 whose
collateralAvailable stands at 800 of 1000) deletes the transfer and
deposits the wood into warehouse 0, but leaves warehouse 0's
collateralAvailable at 800 instead of restoring it to 1000, crediting the
200 to the sending warehouse 1 instead (300 to 500). -/
theorem C1_confirm_received_eval :
    ((confirmReceived fxTransferWorld 7 true).map (·.transfers)) = some [] ∧
    (((confirmReceived fxTransferWorld 7 true).bind
        (fun s => s.warehouses.find? (byId 0))).map (fun h => h.assets "wood")) = some 10 ∧
    (((confirmReceived fxTransferWorld 7 true).bind
        (fun s => s.warehouses.find? (byId 0))).map (·.collateralAvailable)) = some 800 ∧
    (((confirmReceived fxTransferWorld 7 true).bind
        (fun s => s.warehouses.find? (byId 1))).map (·.collateralAvailable)) = some 500 := by
  exact ⟨rfl, rfl, rfl, rfl⟩

/-- Claim C2, refuted on the code by evaluation: the lifecycle create,
advance, confirm-received starting from a state satisfying the collateral
bound ends in a state violating it (the sending warehouse ends with
collateralAvailable 200 against collateral 0). -/
theorem C2_collateral_bound_violated :
    collateralBoundOk fxBoundWorld = true ∧
    collateralBoundOk (runOps fxBoundWorld fxBoundOps) = false := by
  exact ⟨rfl, rfl⟩

/-- Claim C3, refuted on the code by evaluation: approving a user with the
distribution on while the genesis distribution wallet holds 501 stelo
passes the threshold guard (501 is over 500) yet debits
freeSteloOf 501 = 250000000, leaving the distribution wallet with a
negative stelo balance. -/
theorem C3_distribution_negative_balance :
    freeSteloOf 501 = 250000000 ∧
    (((approveUserDistribution fxDistStore "bob" 1).bind
        (fun l => l.find? (fun w => w.address == "genesisdistribution"))).map
      (fun w => w.assets "stelo")) = some (501 - 250000000) ∧
    (501 - 250000000 : Int) < 0 := by
  refine ⟨by decide, rfl, by decide⟩

/-! ## Withdrawal collateral clamp and reused update documents -/

/-- Claim C6: a warehouse-asset withdrawal executed from a state where the
warehouse satisfies collateralAvailable ≤ collateral leaves the warehouse
with collateralAvailable not exceeding its collateral: the clamp caps the
returned collateral exactly at the headroom. -/
theorem C6_withdraw_collateral_clamp
    (st : WorldState) (warehouseId : Nat) (withdrawer : String)
    (assets : List (String × Int)) (collateralToReturn : Int)
    (st2 : WorldState) (wh wh2 : Warehouse)
    (hnodup : (st.warehouses.map (·.id)).Nodup)
    (hwh : st.warehouses.find? (byId warehouseId) = some wh)
    (hinv : wh.collateralAvailable ≤ wh.collateral)
    (hop : withdrawAssets st warehouseId withdrawer assets collateralToReturn = some st2)
    (hwh2 : st2.warehouses.find? (byId warehouseId) = some wh2) :
    wh2.collateralAvailable ≤ wh2.collateral := by
  obtain ⟨l1, l2, hdec, hPwh, hl1⟩ := find?_eq_some_decomp (byId warehouseId) hwh
  have hwid : wh.id = warehouseId := by simpa [byId] using hPwh
  unfold withdrawAssets at hop
  rw [hwh] at hop
  dsimp only at hop
  by_cases hhas : hasAssets wh.assets assets = true
  · have hFwh : (byId warehouseId wh && hasAssets wh.assets assets) = true := by
      rw [hPwh, hhas]; rfl
    have hFl1 : ∀ x ∈ l1, (byId warehouseId x && hasAssets x.assets assets) = false := by
      intro x hx
      simp [hl1 x hx]
    rw [hdec,
      find?_append_of_forall_false (fun h => byId warehouseId h && hasAssets h.assets assets) _ hFl1,
      findFirst_cons_pos (fun h => byId warehouseId h && hasAssets h.assets assets) wh l2 hFwh] at hop
    dsimp only at hop
    cases hfu : st.wallets.find? (fun w => byUsername withdrawer w && hasAssets w.assets assets) with
    | none => rw [hfu] at hop; exact absurd hop (by simp)
    | some u =>
      rw [hfu] at hop
      dsimp only at hop
      rw [Option.some.injEq] at hop
      subst hop
      dsimp only at hwh2
      rw [updateFirst_append_of_forall_false
            (fun h => byId warehouseId h && hasAssets h.assets assets) _ _ hFl1,
        updateFirst_cons_pos
            (fun h => byId warehouseId h && hasAssets h.assets assets) _ wh l2 hFwh,
        find?_append_of_forall_false (byId warehouseId) _ hl1] at hwh2
      have hwh2R := find?_cons_pos_inj hwh2 (by simp [byId, hwid])
      rw [hwh2R]
      dsimp only [withdrawUpdate]
      unfold clampedReturn
      split <;> omega
  · have hFall : ∀ x ∈ l1 ++ wh :: l2,
        (byId warehouseId x && hasAssets x.assets assets) = false := by
      intro x hx
      rcases List.mem_append.mp hx with hx1 | hx2
      · simp [hl1 x hx1]
      · rcases List.mem_cons.mp hx2 with rfl | hx3
        · simp [hhas]
        · have hne : x.id ≠ wh.id := nodup_map_middle_right (·.id) (hdec ▸ hnodup) x hx3
          have hb : byId warehouseId x = false := by
            simp [byId, hwid ▸ hne]
          simp [hb]
    rw [hdec, find?_eq_none_of_forall_false
      (fun h => byId warehouseId h && hasAssets h.assets assets) hFall] at hop
    exact absurd hop (by simp)

/-- Witness for C6 at the concrete withdrawal world: withdrawing 2 wood
valued at 70 against headroom 50 clamps the return so that the warehouse
ends at its collateral, not above. -/
theorem C6_withdraw_collateral_clamp_witness :
    (fxDepositWorld.warehouses.map (·.id)).Nodup ∧
    fxDepositWorld.warehouses.find? (byId 0) = some fxWarehouse ∧
    fxWarehouse.collateralAvailable ≤ fxWarehouse.collateral ∧
    withdrawAssets fxDepositWorld 0 "amy" [("wood", 2)] 70 = some fxWithdrawResult ∧
    fxWithdrawResult.warehouses.find? (byId 0) = some fxWithdrawWarehouse ∧
    fxWithdrawWarehouse.collateralAvailable ≤ fxWithdrawWarehouse.collateral :=
  ⟨by decide, rfl, by decide, rfl, rfl,
    C6_withdraw_collateral_clamp fxDepositWorld 0 "amy" [("wood", 2)] 70
      fxWithdrawResult fxWarehouse fxWithdrawWarehouse
      (by decide) rfl (by decide) rfl rfl⟩

/-- Claim C10: the deposit route reuses its warehouse update document
verbatim on the depositor's wallet, so a successful deposit decrements a
collateralAvailable field on the wallet by the computed collateral (in
addition to crediting the assets); symmetrically a successful withdrawal
increments the withdrawer's wallet collateralAvailable by the clamped
collateral returned (in addition to debiting the assets). -/
theorem C10_wallet_collateral_side_effect (st : WorldState) (warehouseId : Nat)
    (user : String) (assets : List (String × Int)) :
    (∀ collateralNeeded st2 u,
      depositAssets st warehouseId user assets collateralNeeded = some st2 →
      st.wallets.find? (byUsername user) = some u →
      ∃ u2, st2.wallets.find? (byUsername user) = some u2 ∧
        u2.collateralAvailable = u.collateralAvailable - collateralNeeded ∧
        ∀ k, u2.assets k = u.assets k + deltaOf assets k) ∧
    (∀ collateralToReturn st2 u wh,
      withdrawAssets st warehouseId user assets collateralToReturn = some st2 →
      st.warehouses.find? (byId warehouseId) = some wh →
      st.wallets.find? (fun w => byUsername user w && hasAssets w.assets assets) = some u →
      ∃ u2 l1 l2, st.wallets = l1 ++ u :: l2 ∧ st2.wallets = l1 ++ u2 :: l2 ∧
        u2.collateralAvailable = u.collateralAvailable + clampedReturn wh collateralToReturn ∧
        ∀ k, u2.assets k = u.assets k - deltaOf assets k) := by
  constructor
  · intro cn st2 u hop hu
    unfold depositAssets at hop
    cases hwf : st.warehouses.find? (byId warehouseId) with
    | none => rw [hwf] at hop; exact absurd hop (by simp)
    | some wh0 =>
      rw [hwf] at hop
      dsimp only at hop
      split at hop
      · exact absurd hop (by simp)
      · cases hf2 : st.warehouses.find?
            (fun h => byId warehouseId h && decide (cn ≤ h.collateralAvailable)) with
        | none => rw [hf2] at hop; exact absurd hop (by simp)
        | some wh1 =>
          rw [hf2] at hop
          dsimp only at hop
          rw [hu] at hop
          dsimp only at hop
          rw [Option.some.injEq] at hop
          subst hop
          obtain ⟨l1, l2, hdec, hp, hall⟩ := find?_eq_some_decomp (byUsername user) hu
          dsimp only
          refine ⟨_, find?_updateFirst_self (byUsername user) _ hu hp, rfl, fun k => rfl⟩
  · intro ctr st2 u wh hop hwh hu
    unfold withdrawAssets at hop
    rw [hwh] at hop
    dsimp only at hop
    cases hf2 : st.warehouses.find?
        (fun h => byId warehouseId h && hasAssets h.assets assets) with
    | none => rw [hf2] at hop; exact absurd hop (by simp)
    | some wh1 =>
      rw [hf2] at hop
      dsimp only at hop
      rw [hu] at hop
      dsimp only at hop
      rw [Option.some.injEq] at hop
      subst hop
      obtain ⟨l1, l2, hdec, hp, hall⟩ :=
        find?_eq_some_decomp (fun w => byUsername user w && hasAssets w.assets assets) hu
      refine ⟨{ u with
          assets := (withdrawUpdate assets (clampedReturn wh ctr)
            u.assets u.collateralAvailable).1,
          collateralAvailable := (withdrawUpdate assets (clampedReturn wh ctr)
            u.assets u.collateralAvailable).2 },
        l1, l2, hdec, ?_, rfl, fun k => rfl⟩
      dsimp only
      rw [hdec, updateFirst_append_of_forall_false _ _ _ hall,
        updateFirst_cons_pos (fun w => byUsername user w && hasAssets w.assets assets)
          _ u l2 hp]

/-- Witness for C10 at the concrete deposit/withdraw world: amy's wallet
ends the deposit with collateralAvailable -6 and the withdrawal with
collateralAvailable +50 (the clamped return). -/
theorem C10_wallet_collateral_side_effect_witness :
    (depositAssets fxDepositWorld 0 "amy" [("wood", 2)] 6 = some fxDepositResult ∧
     fxDepositWorld.wallets.find? (byUsername "amy") = some fxAmy ∧
     ∃ u2, fxDepositResult.wallets.find? (byUsername "amy") = some u2 ∧
       u2.collateralAvailable = fxAmy.collateralAvailable - 6 ∧
       ∀ k, u2.assets k = fxAmy.assets k + deltaOf [("wood", 2)] k) ∧
    (withdrawAssets fxDepositWorld 0 "amy" [("wood", 2)] 70 = some fxWithdrawResult ∧
     fxDepositWorld.warehouses.find? (byId 0) = some fxWarehouse ∧
     fxDepositWorld.wallets.find?
       (fun w => byUsername "amy" w && hasAssets w.assets [("wood", 2)]) = some fxAmy ∧
     ∃ u2 l1 l2, fxDepositWorld.wallets = l1 ++ fxAmy :: l2 ∧
       fxWithdrawResult.wallets = l1 ++ u2 :: l2 ∧
       u2.collateralAvailable = fxAmy.collateralAvailable + clampedReturn fxWarehouse 70 ∧
       ∀ k, u2.assets k = fxAmy.assets k - deltaOf [("wood", 2)] k) :=
  ⟨⟨rfl, rfl,
    (C10_wallet_collateral_side_effect fxDepositWorld 0 "amy" [("wood", 2)]).1
      6 fxDepositResult fxAmy rfl rfl⟩,
   ⟨rfl, rfl, rfl,
    (C10_wallet_collateral_side_effect fxDepositWorld 0 "amy" [("wood", 2)]).2
      70 fxWithdrawResult fxAmy fxWarehouse rfl rfl rfl⟩⟩

/-! ## The valuation loop: staleness protocol and the reserve asset -/

theorem vaLoop_ok_spec (ga : List (String × PriceEntry)) (gaCheckedAt now : Int)
    (redis : List (String × Int)) (steloAllowed : Bool) :
    ∀ (l : List (String × Int)) (st : VAState),
      (vaLoop ga gaCheckedAt now redis steloAllowed l st).ok = true →
      (vaLoop ga gaCheckedAt now redis steloAllowed l st).outdatedAssets =
        st.outdatedAssets ++ (l.filter (fun p => isStaleKey ga now p.1)).map (·.1) ∧
      ∀ k2 ∈ (vaLoop ga gaCheckedAt now redis steloAllowed l st).fallbacks,
        k2 ∈ st.fallbacks ∨
          (gaCheckedAt < now - thirtyMinutes * 2 ∧ lookupGA ga k2 = none) := by
  intro l
  induction l with
  | nil =>
    intro st _
    exact ⟨by simp [vaLoop], fun k2 hk2 => Or.inl (by simpa [vaLoop] using hk2)⟩
  | cons p rest ih =>
    intro st h
    obtain ⟨k, q⟩ := p
    simp only [vaLoop] at h ⊢
    by_cases h1 : q < 1
    · rw [if_pos h1] at h
      simp at h
    · rw [if_neg h1] at h ⊢
      cases hga : lookupGA ga k with
      | some e =>
        rw [hga] at h
        dsimp only at h ⊢
        by_cases h2 : e.updatedAt < now - thirtyMinutes
        · rw [if_pos h2] at h ⊢
          obtain ⟨iho, ihf⟩ := ih _ h
          constructor
          · rw [iho]
            have hsk : isStaleKey ga now k = true := by
              simp [isStaleKey, hga, h2]
            simp [List.filter_cons, hsk]
          · intro k2 hk2
            exact ihf k2 hk2
        · rw [if_neg h2] at h ⊢
          obtain ⟨iho, ihf⟩ := ih _ h
          constructor
          · rw [iho]
            have hsk : isStaleKey ga now k = false := by
              simp [isStaleKey, hga, h2]
            simp [List.filter_cons, hsk]
          · intro k2 hk2
            exact ihf k2 hk2
      | none =>
        rw [hga] at h
        dsimp only at h ⊢
        by_cases h3 : (k == "stelo") = true
        · rw [if_pos h3] at h ⊢
          by_cases h4 : steloAllowed = true
          · rw [if_pos h4] at h ⊢
            obtain ⟨iho, ihf⟩ := ih _ h
            constructor
            · rw [iho]
              have hsk : isStaleKey ga now k = false := by
                simp [isStaleKey, hga]
              simp [List.filter_cons, hsk]
            · intro k2 hk2
              exact ihf k2 hk2
          · rw [if_neg h4] at h
            simp at h
        · rw [if_neg h3] at h ⊢
          by_cases h5 : gaCheckedAt < now - thirtyMinutes * 2
          · rw [if_pos h5] at h ⊢
            by_cases h6 : redis.isEmpty = true
            · rw [if_pos h6] at h
              simp at h
            · rw [if_neg h6] at h ⊢
              cases hred : lookupRedis redis k with
              | some v =>
                rw [hred] at h
                dsimp only at h ⊢
                obtain ⟨iho, ihf⟩ := ih _ h
                constructor
                · rw [iho]
                  have hsk : isStaleKey ga now k = false := by
                    simp [isStaleKey, hga]
                  simp [List.filter_cons, hsk]
                · intro k2 hk2
                  rcases ihf k2 hk2 with hin | hprop
                  · rcases List.mem_append.mp hin with hin1 | hin2
                    · exact Or.inl hin1
                    · have : k2 = k := by simpa using hin2
                      subst this
                      exact Or.inr ⟨h5, hga⟩
                  · exact Or.inr hprop
              | none =>
                rw [hred] at h
                simp at h
          · rw [if_neg h5] at h
            simp at h

theorem vaLoop_fresh_sum (ga : List (String × PriceEntry)) (gaCheckedAt now : Int)
    (redis : List (String × Int)) :
    ∀ (l : List (String × Int)) (st : VAState),
      (∀ p ∈ l, 1 ≤ p.2) →
      (∀ p ∈ l, p.1 ≠ "stelo" →
        isStaleKey ga now p.1 = false ∧ (lookupGA ga p.1).isSome = true) →
      lookupGA ga "stelo" = none →
      vaLoop ga gaCheckedAt now redis true l st =
        { st with total := st.total + sumNonStelo ga l } := by
  intro l
  induction l with
  | nil =>
    intro st _ _ _
    simp [vaLoop, sumNonStelo]
  | cons p rest ih =>
    intro st hq hfresh hstelo
    obtain ⟨k, q⟩ := p
    have h1 : ¬q < 1 := by
      have := hq (k, q) (by simp)
      omega
    simp only [vaLoop]
    rw [if_neg h1]
    by_cases hk : k = "stelo"
    · subst hk
      rw [hstelo]
      dsimp only
      rw [if_pos (by trivial), if_pos (by trivial)]
      rw [ih st (fun p hp => hq p (List.mem_cons_of_mem _ hp))
        (fun p hp => hfresh p (List.mem_cons_of_mem _ hp)) hstelo]
      simp [sumNonStelo]
    · obtain ⟨hstale, hsome⟩ := hfresh (k, q) (by simp) hk
      cases hga : lookupGA ga k with
      | none => rw [hga] at hsome; simp at hsome
      | some e =>
        dsimp only
        have hfreshe : ¬(e.updatedAt < now - thirtyMinutes) := by
          rw [isStaleKey, hga] at hstale
          simpa using hstale
        rw [if_neg hfreshe]
        rw [ih _ (fun p hp => hq p (List.mem_cons_of_mem _ hp))
          (fun p hp => hfresh p (List.mem_cons_of_mem _ hp)) hstelo]
        simp only [sumNonStelo, VAState.mk.injEq, and_true, true_and]
        rw [if_neg hk]
        simp only [valueInGA, hga]
        simp
        ring

theorem vaLoop_stelo_rejected (ga : List (String × PriceEntry)) (gaCheckedAt now : Int)
    (redis : List (String × Int)) :
    ∀ (l : List (String × Int)) (st : VAState),
      (∀ p ∈ l, 1 ≤ p.2) →
      (∀ p ∈ l, p.1 ≠ "stelo" →
        isStaleKey ga now p.1 = false ∧ (lookupGA ga p.1).isSome = true) →
      lookupGA ga "stelo" = none →
      "stelo" ∈ l.map (·.1) →
      (vaLoop ga gaCheckedAt now redis false l st).ok = false := by
  intro l
  induction l with
  | nil =>
    intro st _ _ _ hmem
    simp at hmem
  | cons p rest ih =>
    intro st hq hfresh hstelo hmem
    obtain ⟨k, q⟩ := p
    have h1 : ¬q < 1 := by
      have := hq (k, q) (by simp)
      omega
    simp only [vaLoop]
    rw [if_neg h1]
    by_cases hk : k = "stelo"
    · subst hk
      rw [hstelo]
      dsimp only
      rw [if_pos (by rfl)]
      rfl
    · obtain ⟨hstale, hsome⟩ := hfresh (k, q) (by simp) hk
      cases hga : lookupGA ga k with
      | none => rw [hga] at hsome; simp at hsome
      | some e =>
        dsimp only
        have hfreshe : ¬(e.updatedAt < now - thirtyMinutes) := by
          rw [isStaleKey, hga] at hstale
          simpa using hstale
        rw [if_neg hfreshe]
        have hmem2 : "stelo" ∈ rest.map (·.1) := by
          simp only [List.map_cons, List.mem_cons] at hmem
          rcases hmem with hbad | hok
          · exact absurd hbad.symm hk
          · exact hok
        exact ih _ (fun p hp => hq p (List.mem_cons_of_mem _ hp))
          (fun p hp => hfresh p (List.mem_cons_of_mem _ hp)) hstelo hmem2

/-- Counterexample to claim C5 as stated: valuating five units of the
reserve asset stelo with allowNonTransferableAsset true yields 0, not the
claimed face value 1 per unit (which would give 5); the rejection when the
flag is false does hold at the same input. -/
theorem C5_stelo_face_value_counterexample :
    (validateAssets fxGA 1000 1000 [("gold", 2)] true [("stelo", 5)]).result = 0 ∧
    specFaceValueTotal fxGA [("stelo", 5)] = 5 ∧
    (validateAssets fxGA 1000 1000 [("gold", 2)] true [("stelo", 5)]).result ≠
      specFaceValueTotal fxGA [("stelo", 5)] ∧
    (validateAssets fxGA 1000 1000 [("gold", 2)] false [("stelo", 5)]).result = -1 := by
  exact ⟨rfl, rfl, by decide, rfl⟩

/-- Claim C5 as amended: for a quantities map whose quantities are all
positive integers and whose non-reserve symbols all resolve to a fresh
snapshot price, valuation returns the sum of value times quantity over the
non-reserve entries, with the reserve asset stelo accepted but
contributing nothing when allowNonTransferableAsset is true, and the call
rejected as Invalid (-1) when stelo occurs and the flag is false. -/
theorem C5_stelo_contributes_zero (ga : List (String × PriceEntry))
    (gaCheckedAt now : Int) (redis : List (String × Int)) (l : List (String × Int))
    (hq : ∀ p ∈ l, 1 ≤ p.2)
    (hfresh : ∀ p ∈ l, p.1 ≠ "stelo" →
      isStaleKey ga now p.1 = false ∧ (lookupGA ga p.1).isSome = true)
    (hstelo : lookupGA ga "stelo" = none) :
    (validateAssets ga gaCheckedAt now redis true l).result = sumNonStelo ga l ∧
    ("stelo" ∈ l.map (·.1) →
      (validateAssets ga gaCheckedAt now redis false l).result = -1) := by
  constructor
  · unfold validateAssets
    rw [vaLoop_fresh_sum ga gaCheckedAt now redis l ⟨0, [], [], true⟩ hq hfresh hstelo]
    simp [refreshLoop]
  · intro hmem
    unfold validateAssets
    have hko := vaLoop_stelo_rejected ga gaCheckedAt now redis l ⟨0, [], [], true⟩
      hq hfresh hstelo hmem
    simp [hko]

/-- Witness for the amended C5: three gold (fresh at price 2) plus five
stelo valuates to 6 when stelo is allowed, and to -1 when it is not. -/
theorem C5_stelo_contributes_zero_witness :
    (validateAssets fxGA 1000 1000 [("gold", 2)] true
      [("gold", 3), ("stelo", 5)]).result = sumNonStelo fxGA [("gold", 3), ("stelo", 5)] ∧
    ("stelo" ∈ ([("gold", (3 : Int)), ("stelo", 5)]).map (·.1) →
      (validateAssets fxGA 1000 1000 [("gold", 2)] false
        [("gold", 3), ("stelo", 5)]).result = -1) :=
  C5_stelo_contributes_zero fxGA 1000 1000 [("gold", 2)] [("gold", 3), ("stelo", 5)]
    (by decide) (by decide) rfl

/-- Claim C7: for every valuation call that completes with a valid result,
a snapshot-present entry is sent to the price source for refresh exactly
when its updatedAt is older than thirty minutes; the whole-table fallback
load is attempted only when the snapshot timestamp read at entry is older
than sixty minutes and the requested symbol is absent from the snapshot;
and a known symbol with a fresh entry triggers neither. -/
theorem C7_staleness_protocol (ga : List (String × PriceEntry))
    (gaCheckedAt now : Int) (redis : List (String × Int)) (steloAllowed : Bool)
    (assetsToCheck : List (String × Int))
    (hres : 0 ≤ (validateAssets ga gaCheckedAt now redis steloAllowed assetsToCheck).result) :
    (∀ k q e, (k, q) ∈ assetsToCheck → lookupGA ga k = some e →
      (k ∈ (validateAssets ga gaCheckedAt now redis steloAllowed
          assetsToCheck).refreshedFromSource ↔
        e.updatedAt < now - thirtyMinutes)) ∧
    (∀ k ∈ (validateAssets ga gaCheckedAt now redis steloAllowed assetsToCheck).fallbacks,
      gaCheckedAt < now - thirtyMinutes * 2 ∧ lookupGA ga k = none) ∧
    (∀ k q e, (k, q) ∈ assetsToCheck → lookupGA ga k = some e →
      ¬(e.updatedAt < now - thirtyMinutes) →
      k ∉ (validateAssets ga gaCheckedAt now redis steloAllowed
          assetsToCheck).refreshedFromSource ∧
      k ∉ (validateAssets ga gaCheckedAt now redis steloAllowed
          assetsToCheck).fallbacks) := by
  by_cases hok :
      (vaLoop ga gaCheckedAt now redis steloAllowed assetsToCheck ⟨0, [], [], true⟩).ok = true
  · obtain ⟨hout, hfall⟩ :=
      vaLoop_ok_spec ga gaCheckedAt now redis steloAllowed assetsToCheck ⟨0, [], [], true⟩ hok
    have hrefreshed :
        (validateAssets ga gaCheckedAt now redis steloAllowed
          assetsToCheck).refreshedFromSource =
        (assetsToCheck.filter (fun p => isStaleKey ga now p.1)).map (·.1) := by
      unfold validateAssets
      rw [if_pos hok]
      simpa using hout
    have hfallbacks :
        (validateAssets ga gaCheckedAt now redis steloAllowed assetsToCheck).fallbacks =
        (vaLoop ga gaCheckedAt now redis steloAllowed assetsToCheck ⟨0, [], [], true⟩).fallbacks := by
      unfold validateAssets
      rw [if_pos hok]
    have hmain : ∀ k q e, (k, q) ∈ assetsToCheck → lookupGA ga k = some e →
        (k ∈ (validateAssets ga gaCheckedAt now redis steloAllowed
            assetsToCheck).refreshedFromSource ↔
          e.updatedAt < now - thirtyMinutes) := by
      intro k q e hmem hga
      rw [hrefreshed]
      constructor
      · intro hin
        obtain ⟨p, hpf, hpk⟩ := List.mem_map.mp hin
        have hpsk : isStaleKey ga now p.1 = true := (List.mem_filter.mp hpf).2
        rw [hpk, isStaleKey, hga] at hpsk
        simpa using hpsk
      · intro hstale
        refine List.mem_map.mpr ⟨(k, q), List.mem_filter.mpr ⟨hmem, ?_⟩, rfl⟩
        rw [isStaleKey, hga]
        simpa using hstale
    have hsecond : ∀ k ∈ (validateAssets ga gaCheckedAt now redis steloAllowed
        assetsToCheck).fallbacks,
        gaCheckedAt < now - thirtyMinutes * 2 ∧ lookupGA ga k = none := by
      intro k hk
      rw [hfallbacks] at hk
      rcases hfall k hk with hin | hprop
      · simp at hin
      · exact hprop
    refine ⟨hmain, hsecond, ?_⟩
    intro k q e hmem hga hfreshk
    constructor
    · intro hin
      exact hfreshk ((hmain k q e hmem hga).mp hin)
    · intro hin
      have := (hsecond k hin).2
      rw [hga] at this
      exact absurd this (by simp)
  · exfalso
    have : (validateAssets ga gaCheckedAt now redis steloAllowed assetsToCheck).result = -1 := by
      unfold validateAssets
      rw [if_neg hok]
    rw [this] at hres
    omega

/-- Witness for C7 at the stale/fresh snapshot: the call valuates iron
(stale, refreshed from the source at price 7) and gold (fresh) to 20,
refreshing exactly the iron entry and making no fallback load. -/
theorem C7_staleness_protocol_witness :
    0 ≤ (validateAssets fxStaleGA fxNow fxNow fxRedis true
      [("iron", 2), ("gold", 3)]).result ∧
    (∀ k q e, (k, q) ∈ [("iron", (2 : Int)), ("gold", 3)] → lookupGA fxStaleGA k = some e →
      (k ∈ (validateAssets fxStaleGA fxNow fxNow fxRedis true
          [("iron", 2), ("gold", 3)]).refreshedFromSource ↔
        e.updatedAt < fxNow - thirtyMinutes)) ∧
    (∀ k ∈ (validateAssets fxStaleGA fxNow fxNow fxRedis true
        [("iron", 2), ("gold", 3)]).fallbacks,
      fxNow < fxNow - thirtyMinutes * 2 ∧ lookupGA fxStaleGA k = none) :=
  ⟨by decide,
    (C7_staleness_protocol fxStaleGA fxNow fxNow fxRedis true
      [("iron", 2), ("gold", 3)] (by decide)).1,
    (C7_staleness_protocol fxStaleGA fxNow fxNow fxRedis true
      [("iron", 2), ("gold", 3)] (by decide)).2.1⟩

end Stelo





